import Mathlib

/-!
Verification of the redis-dumper dump pipeline

Shallow embedding of `lib/dump.js` from the `redis-dumper` repository.

The source has two layers:

* `outputProtocol(key, type, value, ttl)`: a pure function mapping one
  resolved key record to a concatenation of wire-protocol command frames
  (a `switch` on the type string followed by an EXPIRE check on the ttl).
* `class RedisDumper extends Readable`: an event-driven pipeline that scans
  the key space in batches, resolves each key to `(type, value, ttl)`
  concurrently, and pushes each serialized block into the output stream.

We model byte buffers as `List Nat`, command frames symbolically (the RESP
encoder `Command.toWritable` is an external collaborator of the repository,
so a frame is kept as verb plus argument list; concatenating encoded frames
corresponds to concatenating frame lists), and the event-driven pipeline as
an explicit state machine: events (consumer read, scan data, scan end,
resolution completion) act on a `DumperState` exactly as the corresponding
JS handlers mutate the `RedisDumper` instance.
-/

set_option autoImplicit false

namespace RedisDump

/-- Byte buffers (node `Buffer`) are modelled as lists of bytes. -/
abbrev Buf : Type := List Nat

/-- One argument of a command frame: either a byte buffer or a number
(the source passes the parsed `expire` number to the EXPIRE command). -/
inductive Arg : Type where
  | buf (b : Buf) : Arg
  | num (n : Int) : Arg
deriving DecidableEq

/-- A symbolic command frame: `cmd(verb, args)` in the source. The RESP
encoding of a frame is delegated to an external library in the source, so
frames stay symbolic here. -/
structure Frame : Type where
  verb : String
  args : List Arg
deriving DecidableEq

/-- Whitespace characters skipped by the JS `parseInt` before parsing. -/
def isWs (c : Char) : Bool :=
  c = ' ' || c = '\t' || c = '\n' || c = '\r'

/-- Value of a list of decimal digit characters. -/
def digitsVal (ds : List Char) : Nat :=
  ds.foldl (fun a c => a * 10 + (c.toNat - '0'.toNat)) 0

/-- Model of the JS builtin `parseInt(s, 10)` on string input: skip leading
whitespace, read an optional sign, then the longest leading run of decimal
digits; the result is `none` (NaN) when that run is empty, otherwise the
signed value of the digits (trailing garbage is ignored). -/
def jsParseInt (s : String) : Option Int :=
  let cs := s.data.dropWhile isWs
  let signRest : Int × List Char :=
    match cs with
    | '-' :: r => (-1, r)
    | '+' :: r => (1, r)
    | r => (1, r)
  let ds := signRest.2.takeWhile Char.isDigit
  if ds.isEmpty then none else some (signRest.1 * (digitsVal ds : Int))

/-- The value a key resolves to: a single buffer for `string` keys, a flat
buffer sequence for the aggregate types (list, set, zset withscores, hash). -/
inductive RValue : Type where
  | str (b : Buf) : RValue
  | arr (bs : List Buf) : RValue
deriving DecidableEq

/-- Buffer view of a value (the shape `loadValue` guarantees for `string`). -/
def RValue.asBuf : RValue → Buf
  | .str b => b
  | .arr _ => []

/-- Sequence view of a value (the shape `loadValue` guarantees for the
aggregate types). -/
def RValue.asArr : RValue → List Buf
  | .str _ => []
  | .arr bs => bs

/-- The `switch (type)` of `outputProtocol`: the command frames contributed
by the type dispatch, before the EXPIRE check. The `zset` case applies the
JS in-place `value.reverse()`, which reverses the whole flat
member,score,member,score,... array. Types outside the five cases fall to
the default branch and contribute nothing. -/
def typeCommands (key : Buf) (ty : String) (value : RValue) : List Frame :=
  match ty with
  | "string" => [⟨"SET", [.buf key, .buf value.asBuf]⟩]
  | "list" => [⟨"DEL", [.buf key]⟩, ⟨"RPUSH", .buf key :: value.asArr.map .buf⟩]
  | "set" => [⟨"DEL", [.buf key]⟩, ⟨"SADD", .buf key :: value.asArr.map .buf⟩]
  | "zset" => [⟨"DEL", [.buf key]⟩, ⟨"ZADD", .buf key :: value.asArr.reverse.map .buf⟩]
  | "hash" => [⟨"DEL", [.buf key]⟩, ⟨"HMSET", .buf key :: value.asArr.map .buf⟩]
  | _ => []

/-- The EXPIRE check of `outputProtocol`: `const expire = parseInt(ttl, 10);
if (!Number.isNaN(expire) && expire !== -1) commands.push(cmd(EXPIRE, [key, expire]))`. -/
def expireTail (key : Buf) (ttl : String) : List Frame :=
  match jsParseInt ttl with
  | some e => if e ≠ -1 then [⟨"EXPIRE", [.buf key, .num e]⟩] else []
  | none => []

/-- `outputProtocol(key, type, value, ttl)`: the type-dispatch frames
followed by the optional EXPIRE frame; the source returns
`Buffer.concat(commands)`, modelled as the frame list itself. -/
def outputProtocol (key : Buf) (ty : String) (value : RValue) (ttl : String) : List Frame :=
  typeCommands key ty value ++ expireTail key ttl

/-- The five type strings handled by the `loadValue` switch (and by the
`outputProtocol` type dispatch). -/
def supportedType (ty : String) : Bool :=
  ty == "string" || ty == "list" || ty == "set" || ty == "zset" || ty == "hash"

/-- One record of the abstract database a dump session runs against: the
type string the store reports for the key, the value the type-appropriate
fetch returns, and the ttl reply (a decimal string; the source parses it
with `parseInt`). -/
structure Entry : Type where
  type : String
  value : RValue
  ttl : String
deriving DecidableEq

/-- `RedisDumper.loadValue(key, type)`: dispatches on the type string to the
matching value fetch; the default branch throws `Unhandled type`, modelled
as `none`. -/
def loadValue (ty : String) (v : RValue) : Option RValue :=
  match ty with
  | "string" => some v
  | "list" => some v
  | "set" => some v
  | "zset" => some v
  | "hash" => some v
  | _ => none

/-- Session state of a `RedisDumper` instance. `scanStarted` stands for
`this.scanStream !== null`; `scanPaused` for `this.scanStream.isPaused()`;
`scanDrained`, `keys` and `dumping` are the fields of the same names.
`pending` records the keys whose asynchronous resolution has been started
but has not completed (bookkeeping only, not a field of the source);
`started` and `pushed` count resolution starts and completed pushes;
`out` collects the pushed byte blocks (one `Buffer.concat` block per key);
`endCount` counts `super.push(null)` end-of-stream signals; `errored`
records whether `emitError` has fired. -/
structure DumperState : Type where
  scanStarted : Bool
  scanPaused : Bool
  scanDrained : Bool
  keys : List Buf
  pending : List Buf
  dumping : Int
  started : Nat
  pushed : Nat
  out : List (List Frame)
  endCount : Nat
  errored : Bool
deriving DecidableEq

/-- The state of a freshly constructed `RedisDumper`. -/
def initState : DumperState :=
  { scanStarted := false, scanPaused := false, scanDrained := false
    keys := [], pending := [], dumping := 0, started := 0, pushed := 0
    out := [], endCount := 0, errored := false }

/-- `RedisDumper.dumpKey(key)` up to its synchronous effect: increment the
`dumping` counter and start the asynchronous resolution of `key` (recorded
in `pending`; the type, value and ttl fetches complete later as a
`resolve` event). -/
def dumpKey (k : Buf) (s : DumperState) : DumperState :=
  { s with dumping := s.dumping + 1, started := s.started + 1, pending := k :: s.pending }

/-- `RedisDumper.nextKey()`: pop the last queued key and dump it; else
lazily create the scan stream; else resume the paused scan when it is not
drained; else push the end-of-stream signal when the scan is drained and no
resolution is in flight; else do nothing (wait for in-flight completions).
The JS `keys.pop()` removes the last element of the array, modelled with
`getLast?` and `dropLast`. -/
def nextKey (s : DumperState) : DumperState :=
  match s.keys.getLast? with
  | some k => dumpKey k { s with keys := s.keys.dropLast }
  | none =>
    if s.scanStarted = false then
      { s with scanStarted := true, scanPaused := false }
    else if s.scanDrained = false ∧ s.scanPaused = true then
      { s with scanPaused := false }
    else if s.scanDrained = true ∧ s.dumping = 0 then
      { s with endCount := s.endCount + 1 }
    else s

/-- Events that drive a dump session: a consumer pull (`_read`), a batch of
keys delivered by the scan stream (its `data` handler), exhaustion of the
scan stream (its `end` handler), and completion of the in-flight resolution
of one key (the promise chain started by `dumpKey`). -/
inductive Event : Type where
  | read : Event
  | scanData (batch : List Buf) : Event
  | scanEnd : Event
  | resolve (k : Buf) : Event
deriving DecidableEq

/-- One event acting on the session state, or `none` when the event cannot
occur in that state. `read` fires only while the stream has not ended
(node does not call `_read` after `push(null)`). `scanData`/`scanEnd` fire
only on an existing, flowing, undrained scan stream; the `data` handler
overwrites `this.keys`, pauses the stream and calls `nextKey`; the `end`
handler sets `scanDrained` and calls `nextKey`. `resolve k` fires for a key
whose resolution is in flight: with a supported type the chain pushes
`outputProtocol(key, type, value, ttl)` through `RedisDumper.push`, which
decrements `dumping`; with an unsupported type (including a key the store
no longer holds, whose type fetch reports `none`) `loadValue` throws
`Unhandled type` and the chain falls to `.catch(this.emitError)` without
touching `dumping`. -/
def step (db : Buf → Option Entry) : Event → DumperState → Option DumperState
  | .read, s =>
    if s.endCount = 0 then some (nextKey s) else none
  | .scanData batch, s =>
    if s.scanStarted = true ∧ s.scanPaused = false ∧ s.scanDrained = false then
      some (nextKey { s with keys := batch, scanPaused := true })
    else none
  | .scanEnd, s =>
    if s.scanStarted = true ∧ s.scanPaused = false ∧ s.scanDrained = false then
      some (nextKey { s with scanDrained := true })
    else none
  | .resolve k, s =>
    if k ∈ s.pending then
      match db k with
      | some e =>
        match loadValue e.type e.value with
        | some v =>
          some { s with pending := s.pending.erase k
                        dumping := s.dumping - 1
                        pushed := s.pushed + 1
                        out := s.out ++ [outputProtocol k e.type v e.ttl] }
        | none => some { s with pending := s.pending.erase k, errored := true }
      | none => some { s with pending := s.pending.erase k, errored := true }
    else none

/-- Run a list of events from a state; `none` when some event cannot occur. -/
def runEvents (db : Buf → Option Entry) : List Event → DumperState → Option DumperState
  | [], s => some s
  | e :: rest, s =>
    match step db e s with
    | some s' => runEvents db rest s'
    | none => none

/-- States a session over the database `db` can reach from the initial
state by any sequence of events. -/
inductive Reachable (db : Buf → Option Entry) : DumperState → Prop where
  | init : Reachable db initState
  | next {s s' : DumperState} {e : Event} :
      Reachable db s → step db e s = some s' → Reachable db s'

/-- Interleave a list of pairs into the flat sequence the store returns for
a sorted set queried with scores: first component, second component, first
component, ... -/
def flattenPairs : List (Buf × Buf) → List Buf
  | [] => []
  | (a, b) :: rest => a :: b :: flattenPairs rest

/-- A minimal replay store used to state the list reconstruction property:
each key maps to the list of elements currently stored at it. -/
abbrev ListStore : Type := Buf → Option (List Buf)

/-- Buffer arguments of a frame (numeric arguments carry no list element). -/
def argBuf : Arg → Option Buf
  | .buf b => some b
  | .num _ => none

/-- Replay of a single frame against a list store: `DEL key` removes the
key, `RPUSH key v1 .. vn` appends the buffer arguments to the (possibly
absent) list at the key, and every other verb leaves list contents alone. -/
def applyFrame (st : ListStore) (f : Frame) : ListStore :=
  match f.verb, f.args with
  | "DEL", [.buf k] => fun q => if q = k then none else st q
  | "RPUSH", .buf k :: rest =>
      fun q => if q = k then some (((st k).getD []) ++ rest.filterMap argBuf) else st q
  | _, _ => st

/-- Replay a frame sequence left to right against a list store. -/
def replay (st : ListStore) (fs : List Frame) : ListStore :=
  fs.foldl applyFrame st

/-!
Helper lemmas
-/

theorem flattenPairs_append (xs ys : List (Buf × Buf)) :
    flattenPairs (xs ++ ys) = flattenPairs xs ++ flattenPairs ys := by
  induction xs with
  | nil => rfl
  | cons p rest ih => cases p; simp [flattenPairs, ih]

theorem flattenPairs_reverse (ps : List (Buf × Buf)) :
    (flattenPairs ps).reverse = flattenPairs (ps.reverse.map (fun p => (p.2, p.1))) := by
  induction ps with
  | nil => rfl
  | cons p rest ih => cases p; simp [flattenPairs, flattenPairs_append, ih]

theorem loadValue_of_supported (ty : String) (v : RValue) (h : supportedType ty = true) :
    loadValue ty v = some v := by
  simp only [supportedType, Bool.or_eq_true, beq_iff_eq] at h
  rcases h with ⟨⟨⟨h | h⟩ | h⟩ | h⟩ | h <;> subst h <;> rfl

theorem loadValue_of_unsupported (ty : String) (v : RValue) (h : supportedType ty = false) :
    loadValue ty v = none := by
  unfold loadValue
  split <;> simp_all [supportedType]

theorem typeCommands_of_unsupported (k : Buf) (ty : String) (v : RValue)
    (h : supportedType ty = false) : typeCommands k ty v = [] := by
  unfold typeCommands
  split <;> simp_all [supportedType]

theorem expireTail_cases (k : Buf) (ttl : String) :
    expireTail k ttl = [] ∨ ∃ e : Int, expireTail k ttl = [⟨"EXPIRE", [.buf k, .num e]⟩] := by
  unfold expireTail
  cases jsParseInt ttl with
  | none => exact Or.inl rfl
  | some e =>
    by_cases he : e = -1
    · subst he; simp
    · exact Or.inr ⟨e, by simp [he]⟩

theorem expireTail_ne_nil_iff (k : Buf) (ttl : String) :
    expireTail k ttl ≠ [] ↔ ∃ e : Int, jsParseInt ttl = some e ∧ e ≠ -1 := by
  unfold expireTail
  cases jsParseInt ttl with
  | none => simp
  | some e =>
    by_cases he : e = -1
    · subst he; simp
    · simp [he]

theorem expireTail_of_parse (k : Buf) (ttl : String) (e : Int)
    (h1 : jsParseInt ttl = some e) (h2 : e ≠ -1) :
    expireTail k ttl = [⟨"EXPIRE", [.buf k, .num e]⟩] := by
  simp [expireTail, h1, h2]

theorem jsParseInt_neg_one : jsParseInt "-1" = some (-1) := by decide

theorem expireTail_neg_one (k : Buf) : expireTail k "-1" = [] := by
  simp [expireTail, jsParseInt_neg_one]

theorem filterMap_argBuf_map_buf (es : List Buf) :
    (es.map Arg.buf).filterMap argBuf = es := by
  induction es <;> simp_all [argBuf]

theorem filterMap_argBuf_comp (es : List Buf) :
    es.filterMap (argBuf ∘ Arg.buf) = es := by
  induction es <;> simp_all [argBuf]

/-!
State machine lemmas
-/

theorem nextKey_scanDrained (s : DumperState) :
    (nextKey s).scanDrained = s.scanDrained := by
  unfold nextKey
  cases s.keys.getLast? with
  | some k => simp [dumpKey]
  | none => split_ifs <;> rfl

theorem nextKey_endCount (s : DumperState) :
    (nextKey s).endCount = s.endCount
    ∨ (nextKey s = { s with endCount := s.endCount + 1 }
        ∧ s.scanDrained = true ∧ s.dumping = 0 ∧ s.keys = []) := by
  unfold nextKey
  cases hk : s.keys.getLast? with
  | some k => left; simp [dumpKey]
  | none =>
    rw [List.getLast?_eq_none_iff] at hk
    split_ifs with h1 h2 h3
    · left; rfl
    · left; rfl
    · exact Or.inr ⟨rfl, h3.1, h3.2, hk⟩
    · left; rfl

theorem nextKey_of_keys_nil {s : DumperState} (h : s.keys = []) :
    (nextKey s).keys = [] ∧ (nextKey s).pending = s.pending ∧ (nextKey s).out = s.out := by
  unfold nextKey
  rw [h]
  simp only [List.getLast?_nil]
  split_ifs <;> simp [h]

/-- Bookkeeping invariant behind the in-flight counter: `dumping` is the
number of resolutions started minus the number of completed pushes, and the
keys still in flight account for at most that difference. -/
def CounterInv (s : DumperState) : Prop :=
  s.dumping = (s.started : Int) - (s.pushed : Int) ∧ s.pending.length + s.pushed ≤ s.started

theorem counterInv_nextKey {s : DumperState} (h : CounterInv s) : CounterInv (nextKey s) := by
  obtain ⟨h1, h2⟩ := h
  unfold nextKey
  cases s.keys.getLast? with
  | some k => refine ⟨?_, ?_⟩ <;> simp [dumpKey] <;> omega
  | none => split_ifs <;> exact ⟨h1, h2⟩

theorem counterInv_step {db : Buf → Option Entry} {e : Event} {s s' : DumperState}
    (h : CounterInv s) (hs : step db e s = some s') : CounterInv s' := by
  cases e with
  | read =>
    simp only [step, Option.ite_none_right_eq_some, Option.some.injEq] at hs
    obtain ⟨-, hs⟩ := hs
    subst hs
    exact counterInv_nextKey h
  | scanData batch =>
    simp only [step, Option.ite_none_right_eq_some, Option.some.injEq] at hs
    obtain ⟨-, hs⟩ := hs
    subst hs
    exact counterInv_nextKey ⟨h.1, h.2⟩
  | scanEnd =>
    simp only [step, Option.ite_none_right_eq_some, Option.some.injEq] at hs
    obtain ⟨-, hs⟩ := hs
    subst hs
    exact counterInv_nextKey ⟨h.1, h.2⟩
  | resolve k =>
    simp only [step, Option.ite_none_right_eq_some] at hs
    obtain ⟨hmem, hs⟩ := hs
    have hlen : (s.pending.erase k).length = s.pending.length - 1 :=
      List.length_erase_of_mem hmem
    have hpos : 1 ≤ s.pending.length := List.length_pos.mpr (List.ne_nil_of_mem hmem)
    obtain ⟨h1, h2⟩ := h
    split at hs
    · split at hs
      · simp only [Option.some.injEq] at hs
        subst hs
        refine ⟨by simp; omega, by simp [hlen]; omega⟩
      · simp only [Option.some.injEq] at hs
        subst hs
        refine ⟨by simpa using h1, by simp [hlen]; omega⟩
    · simp only [Option.some.injEq] at hs
      subst hs
      refine ⟨by simpa using h1, by simp [hlen]; omega⟩

theorem counterInv_reachable {db : Buf → Option Entry} {s : DumperState}
    (h : Reachable db s) : CounterInv s := by
  induction h with
  | init => exact ⟨by simp [initState], by simp [initState]⟩
  | next _ hs ih => exact counterInv_step ih hs

/-- Invariant behind the single end-of-stream signal: at most one end
signal has been pushed, and once one has been pushed the scan is drained. -/
def EndInv (s : DumperState) : Prop :=
  s.endCount ≤ 1 ∧ (1 ≤ s.endCount → s.scanDrained = true)

theorem endInv_step {db : Buf → Option Entry} {e : Event} {s s' : DumperState}
    (h : EndInv s) (hs : step db e s = some s') : EndInv s' := by
  obtain ⟨h1, h2⟩ := h
  cases e with
  | read =>
    simp only [step, Option.ite_none_right_eq_some, Option.some.injEq] at hs
    obtain ⟨hend, hs⟩ := hs
    subst hs
    rcases nextKey_endCount s with heq | ⟨heq, hdr, -, -⟩
    · refine ⟨by rw [heq]; omega, fun hge => ?_⟩
      rw [nextKey_scanDrained]
      rw [heq] at hge
      exact h2 hge
    · rw [heq]
      exact ⟨by simp [hend], fun _ => by simpa using hdr⟩
  | scanData batch =>
    simp only [step, Option.ite_none_right_eq_some, Option.some.injEq] at hs
    obtain ⟨hcond, hs⟩ := hs
    subst hs
    have hpre : s.endCount = 0 := by
      by_contra hne
      have := h2 (by omega)
      simp [this] at hcond
    rcases nextKey_endCount { s with keys := batch, scanPaused := true } with heq | ⟨-, hdr, -, -⟩
    · refine ⟨by rw [heq]; simp [hpre], fun hge => ?_⟩
      rw [heq] at hge
      simp [hpre] at hge
    · have : s.scanDrained = true := by simpa using hdr
      simp [this] at hcond
  | scanEnd =>
    simp only [step, Option.ite_none_right_eq_some, Option.some.injEq] at hs
    obtain ⟨hcond, hs⟩ := hs
    subst hs
    have hpre : s.endCount = 0 := by
      by_contra hne
      have := h2 (by omega)
      simp [this] at hcond
    rcases nextKey_endCount { s with scanDrained := true } with heq | ⟨heq, -, -, -⟩
    · refine ⟨by rw [heq]; simp [hpre], fun _ => ?_⟩
      rw [nextKey_scanDrained]
    · rw [heq]
      exact ⟨by simp [hpre], fun _ => rfl⟩
  | resolve k =>
    simp only [step, Option.ite_none_right_eq_some] at hs
    obtain ⟨hmem, hs⟩ := hs
    split at hs
    · split at hs
      · simp only [Option.some.injEq] at hs
        subst hs
        exact ⟨h1, h2⟩
      · simp only [Option.some.injEq] at hs
        subst hs
        exact ⟨h1, h2⟩
    · simp only [Option.some.injEq] at hs
      subst hs
      exact ⟨h1, h2⟩

theorem endInv_reachable {db : Buf → Option Entry} {s : DumperState}
    (h : Reachable db s) : EndInv s := by
  induction h with
  | init => exact ⟨by simp [initState], by simp [initState]⟩
  | next _ hs ih => exact endInv_step ih hs

theorem typeCommands_string (k : Buf) (v : RValue) :
    typeCommands k "string" v = [⟨"SET", [.buf k, .buf v.asBuf]⟩] := rfl

theorem typeCommands_list (k : Buf) (v : RValue) :
    typeCommands k "list" v = [⟨"DEL", [.buf k]⟩, ⟨"RPUSH", .buf k :: v.asArr.map .buf⟩] := rfl

theorem typeCommands_zset (k : Buf) (v : RValue) :
    typeCommands k "zset" v
      = [⟨"DEL", [.buf k]⟩, ⟨"ZADD", .buf k :: v.asArr.reverse.map .buf⟩] := rfl

theorem applyFrame_del (st : ListStore) (k : Buf) :
    applyFrame st ⟨"DEL", [.buf k]⟩ = fun q => if q = k then none else st q := rfl

theorem applyFrame_rpush (st : ListStore) (k : Buf) (args : List Arg) :
    applyFrame st ⟨"RPUSH", .buf k :: args⟩
      = fun q => if q = k then some (((st k).getD []) ++ args.filterMap argBuf) else st q := rfl

theorem applyFrame_expire (st : ListStore) (k : Buf) (e : Int) :
    applyFrame st ⟨"EXPIRE", [.buf k, .num e]⟩ = st := rfl

/-- Characterization of a successful resolution step: when the store holds
the key with a supported type, the completion removes the key from the
in-flight set, decrements `dumping`, counts the push and appends exactly
one serialized block to the output. -/
theorem step_resolve_supported {db : Buf → Option Entry} {k : Buf} {entry : Entry}
    {s s' : DumperState} (h1 : db k = some entry) (h2 : supportedType entry.type = true)
    (hs : step db (.resolve k) s = some s') :
    k ∈ s.pending ∧
      s' = { s with
              pending := s.pending.erase k, dumping := s.dumping - 1,
              pushed := s.pushed + 1,
              out := s.out ++ [outputProtocol k entry.type entry.value entry.ttl] } := by
  simp only [step, Option.ite_none_right_eq_some] at hs
  obtain ⟨hmem, hs⟩ := hs
  simp only [h1, loadValue_of_supported entry.type entry.value h2, Option.some.injEq] at hs
  exact ⟨hmem, hs.symm⟩

/-- Characterization of a failed resolution step: when the type is not one
of the five handled kinds, `loadValue` throws and the rejection reaches
`emitError`; the counters, the output and `dumping` stay untouched. -/
theorem step_resolve_unsupported {db : Buf → Option Entry} {k : Buf} {entry : Entry}
    {s s' : DumperState} (h1 : db k = some entry) (h2 : supportedType entry.type = false)
    (hs : step db (.resolve k) s = some s') :
    k ∈ s.pending ∧ s' = { s with pending := s.pending.erase k, errored := true } := by
  simp only [step, Option.ite_none_right_eq_some] at hs
  obtain ⟨hmem, hs⟩ := hs
  simp only [h1, loadValue_of_unsupported entry.type entry.value h2, Option.some.injEq] at hs
  exact ⟨hmem, hs.symm⟩

/-- Singleton list evaluation facts for the JS `keys.pop()` model. -/
theorem getLast_one (a : Buf) : ([a] : List Buf).getLast? = some a := rfl

theorem dropLast_one (a : Buf) : ([a] : List Buf).dropLast = [] := rfl

/-- Helper for the empty-database property: as long as every delivered
batch is empty, the key queue, the in-flight set and the output all stay
empty across any run. -/
theorem runEvents_keeps_empty {db : Buf → Option Entry} :
    ∀ (events : List Event) (s s' : DumperState),
      (∀ b : List Buf, Event.scanData b ∈ events → b = []) →
      s.keys = [] → s.pending = [] → s.out = [] →
      runEvents db events s = some s' → s'.out = [] := by
  intro events
  induction events with
  | nil =>
    intro s s' _ _ _ h3 hr
    simp only [runEvents, Option.some.injEq] at hr
    subst hr
    exact h3
  | cons e rest ih =>
    intro s s' hb h1 h2 h3 hr
    simp only [runEvents] at hr
    cases hstep : step db e s with
    | none => rw [hstep] at hr; cases hr
    | some s1 =>
      rw [hstep] at hr
      have hkeep : s1.keys = [] ∧ s1.pending = [] ∧ s1.out = [] := by
        cases e with
        | read =>
          simp only [step, Option.ite_none_right_eq_some, Option.some.injEq] at hstep
          obtain ⟨-, hstep⟩ := hstep
          subst hstep
          obtain ⟨a, b, c⟩ := nextKey_of_keys_nil h1
          exact ⟨a, by rw [b, h2], by rw [c, h3]⟩
        | scanData batch =>
          have hbe : batch = [] := hb batch (by simp)
          simp only [step, Option.ite_none_right_eq_some, Option.some.injEq] at hstep
          obtain ⟨-, hstep⟩ := hstep
          subst hstep
          obtain ⟨a, b, c⟩ :=
            nextKey_of_keys_nil (s := { s with keys := batch, scanPaused := true })
              (by simpa using hbe)
          exact ⟨a, by rw [b]; simpa using h2, by rw [c]; simpa using h3⟩
        | scanEnd =>
          simp only [step, Option.ite_none_right_eq_some, Option.some.injEq] at hstep
          obtain ⟨-, hstep⟩ := hstep
          subst hstep
          obtain ⟨a, b, c⟩ :=
            nextKey_of_keys_nil (s := { s with scanDrained := true }) (by simpa using h1)
          exact ⟨a, by rw [b]; simpa using h2, by rw [c]; simpa using h3⟩
        | resolve k =>
          simp only [step, Option.ite_none_right_eq_some] at hstep
          obtain ⟨hmem, -⟩ := hstep
          rw [h2] at hmem
          simp at hmem
      exact ih s1 s' (fun b hbmem => hb b (List.mem_cons_of_mem _ hbmem))
        hkeep.1 hkeep.2.1 hkeep.2.2 hr

/-!
Claims
-/

/-- C2 counterexample: for the zset key `k` whose store reply is the flat
pair sequence `m1, s1, m2, s2 = "a", "1", "b", "2"` (byte values 97, 49,
98, 50), the code does NOT build the frame `ZADD k s1 m1 s2 m2` that
score,member pairs in preserved ranking order would give: the JS in-place
`Array.prototype.reverse` reverses the whole flat array, so the actual
frame is `ZADD k s2 m2 s1 m1`, with the last-ranked member first. -/
theorem zset_order_counterexample :
    outputProtocol [107] "zset" (.arr [[97], [49], [98], [50]]) "-1"
      = [⟨"DEL", [.buf [107]]⟩,
         ⟨"ZADD", [.buf [107], .buf [50], .buf [98], .buf [49], .buf [97]]⟩]
    ∧ outputProtocol [107] "zset" (.arr [[97], [49], [98], [50]]) "-1"
      ≠ [⟨"DEL", [.buf [107]]⟩,
         ⟨"ZADD", [.buf [107], .buf [49], .buf [97], .buf [50], .buf [98]]⟩] := by
  decide

/-- C2 (amended): for a zset key whose store reply is the flat
member,score pair sequence `flattenPairs ps`, the serialization emits
`DEL key` and a single ZADD frame whose arguments are the pairs reversed
to score,member order, with the ranking order of the members also
reversed: the last-ranked pair comes first. -/
theorem zset_pairs_and_order_reversed (k : Buf) (ps : List (Buf × Buf)) (ttl : String) :
    outputProtocol k "zset" (.arr (flattenPairs ps)) ttl
      = [⟨"DEL", [.buf k]⟩,
         ⟨"ZADD", .buf k :: (flattenPairs (ps.reverse.map (fun p => (p.2, p.1)))).map .buf⟩]
        ++ expireTail k ttl := by
  simp [outputProtocol, typeCommands_zset, RValue.asArr, flattenPairs_reverse]

/-- C3 counterexample: the ttl reply `-2` (the store answer for a key that
vanished between scan and ttl fetch) parses to the negative integer -2,
which is not -1, so the code DOES append an `EXPIRE key -2` frame even
though -2 is not a valid non-negative integer — refuting the claimed
`if and only if the ttl parses to a valid non-negative integer`. -/
theorem expire_negative_counterexample :
    jsParseInt "-2" = some (-2)
    ∧ (outputProtocol [107] "string" (.str [97]) "-2").map Frame.verb = ["SET", "EXPIRE"] := by
  decide

/-- C3 (amended): for every serialized KeyRecord, an `EXPIRE key ttl`
frame is appended if and only if the ttl parses to an integer different
from -1 (negative integers such as -2 also produce an EXPIRE frame);
ttl = -1 appends nothing, and any non-integer/unparseable ttl is treated
as no expiration (nothing appended, no error). -/
theorem expire_appended_iff_parse_ne_negOne (k : Buf) (ty : String) (v : RValue) (ttl : String) :
    outputProtocol k ty v ttl = typeCommands k ty v ++ expireTail k ttl
    ∧ (expireTail k ttl ≠ [] ↔ ∃ e : Int, jsParseInt ttl = some e ∧ e ≠ -1)
    ∧ (∀ e : Int, jsParseInt ttl = some e → e ≠ -1 →
        expireTail k ttl = [⟨"EXPIRE", [.buf k, .num e]⟩])
    ∧ expireTail k "-1" = []
    ∧ (jsParseInt ttl = none → expireTail k ttl = []) := by
  refine ⟨rfl, expireTail_ne_nil_iff k ttl, expireTail_of_parse k ttl,
    expireTail_neg_one k, ?_⟩
  intro h
  simp [expireTail, h]

/-- C3 witness: the ttl string `7` parses to 7 and an EXPIRE frame is
appended, via the C3 theorem. -/
theorem expire_appended_iff_witness :
    expireTail [107] "7" = [⟨"EXPIRE", [.buf [107], .num 7]⟩] :=
  (expire_appended_iff_parse_ne_negOne [107] "string" (.str [97]) "7").2.2.1 7
    (by decide) (by decide)

/-- C5: every key record of supported type serializes to exactly one
contiguous run of frames in the fixed internal order: `DEL key` first
(absent only for strings), then the single bulk-insert frame, then — last
within the run, when present — the EXPIRE frame; and each successful
resolution step appends that whole run as one block to the output. -/
theorem keyrecord_frame_order (db : Buf → Option Entry) (k : Buf) (ty : String)
    (v : RValue) (ttl : String) (h : supportedType ty = true) :
    (∃ bulk : Frame, ∃ tail : List Frame,
      outputProtocol k ty v ttl
        = (if ty = "string" then [] else [⟨"DEL", [.buf k]⟩]) ++ [bulk] ++ tail
      ∧ bulk.verb ≠ "DEL" ∧ bulk.verb ≠ "EXPIRE"
      ∧ (tail = [] ∨ ∃ e : Int, tail = [⟨"EXPIRE", [.buf k, .num e]⟩]))
    ∧ (∀ (s s' : DumperState) (entry : Entry), db k = some entry → entry.type = ty →
        entry.value = v → entry.ttl = ttl → step db (.resolve k) s = some s' →
        s'.out = s.out ++ [outputProtocol k ty v ttl]) := by
  constructor
  · simp only [supportedType, Bool.or_eq_true, beq_iff_eq] at h
    rcases h with ⟨⟨⟨h | h⟩ | h⟩ | h⟩ | h <;> subst h
    · exact ⟨⟨"SET", [.buf k, .buf v.asBuf]⟩, expireTail k ttl,
        by simp [outputProtocol, typeCommands], by simp, by simp, expireTail_cases k ttl⟩
    · exact ⟨⟨"RPUSH", .buf k :: v.asArr.map .buf⟩, expireTail k ttl,
        by simp [outputProtocol, typeCommands], by simp, by simp, expireTail_cases k ttl⟩
    · exact ⟨⟨"SADD", .buf k :: v.asArr.map .buf⟩, expireTail k ttl,
        by simp [outputProtocol, typeCommands], by simp, by simp, expireTail_cases k ttl⟩
    · exact ⟨⟨"ZADD", .buf k :: v.asArr.reverse.map .buf⟩, expireTail k ttl,
        by simp [outputProtocol, typeCommands], by simp, by simp, expireTail_cases k ttl⟩
    · exact ⟨⟨"HMSET", .buf k :: v.asArr.map .buf⟩, expireTail k ttl,
        by simp [outputProtocol, typeCommands], by simp, by simp, expireTail_cases k ttl⟩
  · intro s s' entry h1 h2 h3 h4 hstep
    subst h2
    subst h3
    subst h4
    obtain ⟨-, rfl⟩ := step_resolve_supported h1 h hstep
    rfl

/-- C5 witness: the string record for key byte 107, value byte 97 and
ttl -1, resolved in a state with that key in flight, appends exactly its
serialized block to the output. -/
theorem keyrecord_frame_order_witness :
    ({ initState with
        pending := ([] : List Buf), dumping := 0, started := 1, pushed := 1,
        out := [[⟨"SET", [Arg.buf [107], Arg.buf [97]]⟩]] } : DumperState).out
      = ({ initState with pending := [[107]], dumping := 1, started := 1 } : DumperState).out
          ++ [outputProtocol [107] "string" (.str [97]) "-1"] :=
  (keyrecord_frame_order
      (fun key => if key = [107] then some ⟨"string", .str [97], "-1"⟩ else none)
      [107] "string" (.str [97]) "-1" (by decide)).2
    { initState with pending := [[107]], dumping := 1, started := 1 }
    { initState with
      pending := ([] : List Buf), dumping := 0, started := 1, pushed := 1,
      out := [[⟨"SET", [Arg.buf [107], Arg.buf [97]]⟩]] }
    ⟨"string", .str [97], "-1"⟩ (by decide) rfl rfl rfl (by decide)

/-- C7: a list key with elements e1..en serializes to `DEL key` followed
by a single `RPUSH key e1 .. en` frame with the elements in their original
order (plus the optional trailing EXPIRE), and replaying those frames
against any list store leaves exactly the original elements, in the same
order, at the key. -/
theorem list_frames_replay (k : Buf) (es : List Buf) (ttl : String) (st : ListStore) :
    outputProtocol k "list" (.arr es) ttl
      = [⟨"DEL", [.buf k]⟩, ⟨"RPUSH", .buf k :: es.map .buf⟩] ++ expireTail k ttl
    ∧ replay st (outputProtocol k "list" (.arr es) ttl) k = some es := by
  have hfr : outputProtocol k "list" (.arr es) ttl
      = [⟨"DEL", [.buf k]⟩, ⟨"RPUSH", .buf k :: es.map .buf⟩] ++ expireTail k ttl := by
    simp [outputProtocol, typeCommands_list, RValue.asArr]
  refine ⟨hfr, ?_⟩
  rw [hfr]
  rcases expireTail_cases k ttl with htail | ⟨e, htail⟩ <;> rw [htail] <;>
    simp [replay, applyFrame_del, applyFrame_rpush, applyFrame_expire,
      filterMap_argBuf_map_buf, filterMap_argBuf_comp]

/-- C10: when `outputProtocol` is called with a type outside the five
handled kinds, the type dispatch contributes no frames; if the ttl parses
to an integer different from -1 the result is a lone EXPIRE frame, and
with ttl = -1 or an unparseable ttl the result is the empty buffer. -/
theorem unsupported_type_expire_only (k : Buf) (ty : String) (v : RValue) (ttl : String)
    (h : supportedType ty = false) :
    outputProtocol k ty v ttl = expireTail k ttl
    ∧ (∀ e : Int, jsParseInt ttl = some e → e ≠ -1 →
        outputProtocol k ty v ttl = [⟨"EXPIRE", [.buf k, .num e]⟩])
    ∧ (jsParseInt ttl = some (-1) ∨ jsParseInt ttl = none → outputProtocol k ty v ttl = []) := by
  have h0 : outputProtocol k ty v ttl = expireTail k ttl := by
    simp [outputProtocol, typeCommands_of_unsupported k ty v h]
  refine ⟨h0, ?_, ?_⟩
  · intro e h1 h2
    rw [h0, expireTail_of_parse k ttl e h1 h2]
  · rintro (h1 | h1) <;> rw [h0] <;> simp [expireTail, h1]

/-- C10 witness: for the unsupported type `stream` with ttl `5`, the
serialization is exactly the lone EXPIRE frame. -/
theorem unsupported_type_expire_only_witness :
    outputProtocol [107] "stream" (.arr []) "5" = [⟨"EXPIRE", [.buf [107], .num 5]⟩] :=
  (unsupported_type_expire_only [107] "stream" (.arr []) "5" (by decide)).2.1 5
    (by decide) (by decide)

/-- C1 counterexample: a database holding the single key byte 107 with the
unsupported type `stream`. After the scan delivers the key and its
resolution completes, the session has produced no output block (the one
part of the claim that holds), but `errored` is true — `loadValue` threw
`Unhandled type` and the rejection reached `emitError`, failing the
session — and `dumping` is still 1: the in-flight counter was never
decremented, contradicting the claimed silent drop. -/
theorem unsupported_key_counterexample :
    (runEvents (fun key => if key = [107] then some ⟨"stream", .arr [], "-1"⟩ else none)
        [Event.read, Event.scanData [[107]], Event.resolve [107]]
        initState).map (fun s => (s.out, s.errored, s.dumping))
      = some ([], true, 1) := by
  decide

/-- C1 (amended): for every key whose type is not one of the five handled
kinds, the resolution produces no output frames for that key, but it does
not drop the key silently: the `Unhandled type` error is emitted, failing
the session (`errored`), and the in-flight counter is NOT decremented —
`dumping` and `out` are unchanged by the completion. -/
theorem unsupported_key_emits_error (db : Buf → Option Entry) (k : Buf) (entry : Entry)
    (s : DumperState) (h1 : db k = some entry) (h2 : supportedType entry.type = false)
    (h3 : k ∈ s.pending) :
    step db (.resolve k) s = some { s with pending := s.pending.erase k, errored := true }
    ∧ ({ s with pending := s.pending.erase k, errored := true } : DumperState).out = s.out
    ∧ ({ s with pending := s.pending.erase k, errored := true } : DumperState).dumping
        = s.dumping := by
  refine ⟨?_, rfl, rfl⟩
  simp [step, h3, h1, loadValue_of_unsupported entry.type entry.value h2]

/-- C1 witness: the amended behavior at the concrete stream-typed key. -/
theorem unsupported_key_emits_error_witness :
    step (fun key => if key = [107] then some ⟨"stream", .arr [], "-1"⟩ else none)
        (.resolve [107]) { initState with pending := [[107]], dumping := 1, started := 1 }
      = some { initState with pending := [], dumping := 1, started := 1, errored := true } :=
  (unsupported_key_emits_error
      (fun key => if key = [107] then some ⟨"stream", .arr [], "-1"⟩ else none)
      [107] ⟨"stream", .arr [], "-1"⟩
      { initState with pending := [[107]], dumping := 1, started := 1 }
      (by decide) (by decide) (by decide)).1

/-- C4: the end-of-stream signal is pushed at most once per session, and a
transition can push it only into a state where the scan is drained
(enumeration exhausted), the in-flight counter is zero and the key queue is
empty; while any resolution is in flight or the scan is not drained, no end
signal is produced. A complete run over an empty database pushes it exactly
once. -/
theorem end_signal_once_and_only_idle (db : Buf → Option Entry) :
    (∀ (s s' : DumperState) (e : Event), Reachable db s → step db e s = some s' →
        s.endCount < s'.endCount →
        s'.endCount = s.endCount + 1 ∧ s'.scanDrained = true ∧ s'.dumping = 0
          ∧ s'.keys = [])
    ∧ (∀ s : DumperState, Reachable db s → s.endCount ≤ 1)
    ∧ ((runEvents (fun _ => none) [Event.read, Event.scanEnd] initState).map
        (fun s => s.endCount) = some 1) := by
  refine ⟨?_, ?_, by decide⟩
  · intro s s' e _ hs hlt
    cases e with
    | read =>
      simp only [step, Option.ite_none_right_eq_some, Option.some.injEq] at hs
      obtain ⟨hend, hs⟩ := hs
      subst hs
      rcases nextKey_endCount s with heq | ⟨heq, hdr, hdump, hkeys⟩
      · omega
      · rw [heq]
        exact ⟨by simp, by simpa using hdr, by simpa using hdump, by simpa using hkeys⟩
    | scanData batch =>
      simp only [step, Option.ite_none_right_eq_some, Option.some.injEq] at hs
      obtain ⟨hcond, hs⟩ := hs
      subst hs
      rcases nextKey_endCount { s with keys := batch, scanPaused := true }
        with heq | ⟨-, hdr, -, -⟩
      · rw [heq] at hlt
        simp at hlt
      · have : s.scanDrained = true := by simpa using hdr
        simp [this] at hcond
    | scanEnd =>
      simp only [step, Option.ite_none_right_eq_some, Option.some.injEq] at hs
      obtain ⟨hcond, hs⟩ := hs
      subst hs
      rcases nextKey_endCount { s with scanDrained := true }
        with heq | ⟨heq, -, hdump, hkeys⟩
      · rw [heq] at hlt
        simp at hlt
      · rw [heq]
        exact ⟨by simp, by simp, by simpa using hdump, by simpa using hkeys⟩
    | resolve k =>
      simp only [step, Option.ite_none_right_eq_some] at hs
      obtain ⟨-, hs⟩ := hs
      split at hs
      · split at hs
        · simp only [Option.some.injEq] at hs
          subst hs
          simp at hlt
        · simp only [Option.some.injEq] at hs
          subst hs
          simp at hlt
      · simp only [Option.some.injEq] at hs
        subst hs
        simp at hlt
  · intro s hr
    exact (endInv_reachable hr).1

/-- C4 witness: the invariant at the initial state, and the concrete scan
drain transition that pushes the end signal. -/
theorem end_signal_once_witness :
    initState.endCount ≤ 1 :=
  (end_signal_once_and_only_idle (fun _ => none)).2.1 initState Reachable.init

/-- C6: for a database holding the single string key k with value v and
ttl -1, the complete session run delivers exactly the frame SET k v and
nothing else, and ends the stream. -/
theorem single_string_key_output (k v : Buf) :
    (runEvents (fun key => if key = k then some ⟨"string", .str v, "-1"⟩ else none)
        [Event.read, Event.scanData [k], Event.resolve k, Event.read, Event.scanEnd]
        initState).map (fun s => (s.out.flatten, s.endCount))
      = some ([⟨"SET", [.buf k, .buf v]⟩], 1) := by
  simp [runEvents, step, nextKey, dumpKey, initState, outputProtocol, typeCommands_string,
    expireTail_neg_one, loadValue, RValue.asBuf, getLast_one, dropLast_one]

/-- C8: a run in which the scan only ever delivers empty batches — in
particular any run over an empty database — produces zero output blocks;
the canonical empty-database run (scan starts, drains with no keys) ends
the stream with zero-length output. -/
theorem empty_db_zero_output (db : Buf → Option Entry) :
    (∀ (events : List Event) (s : DumperState),
        (∀ b : List Buf, Event.scanData b ∈ events → b = []) →
        runEvents db events initState = some s → s.out = [])
    ∧ ((runEvents (fun _ => none) [Event.read, Event.scanEnd] initState).map
        (fun s => (s.out, s.endCount)) = some ([], 1)) := by
  constructor
  · intro events s hb hr
    exact runEvents_keeps_empty events initState s hb rfl rfl rfl hr
  · decide

/-- C8 witness: the canonical empty-database run reaches a state with
empty output, via the C8 theorem. -/
theorem empty_db_zero_output_witness :
    ({ initState with scanStarted := true, scanDrained := true, endCount := 1 }
        : DumperState).out = [] :=
  (empty_db_zero_output (fun _ => none)).1 [Event.read, Event.scanEnd]
    { initState with scanStarted := true, scanDrained := true, endCount := 1 }
    (fun b hb => by simp at hb) (by decide)

/-- C9: in every reachable session state the in-flight counter `dumping`
is non-negative and equals the number of resolutions started minus the
number of serialized blocks pushed; starting a resolution increments it by
exactly one, a completed push decrements it by exactly one while appending
exactly one block, and a failed resolution leaves the counter (and the
output) untouched. -/
theorem dumping_counter_correct (db : Buf → Option Entry) :
    (∀ s : DumperState, Reachable db s →
        0 ≤ s.dumping ∧ s.dumping = (s.started : Int) - (s.pushed : Int))
    ∧ (∀ (k : Buf) (s : DumperState),
        (dumpKey k s).dumping = s.dumping + 1 ∧ (dumpKey k s).started = s.started + 1
          ∧ (dumpKey k s).pushed = s.pushed)
    ∧ (∀ (k : Buf) (entry : Entry) (s s' : DumperState), db k = some entry →
        supportedType entry.type = false → step db (.resolve k) s = some s' →
        s'.dumping = s.dumping ∧ s'.pushed = s.pushed ∧ s'.out = s.out ∧ s'.errored = true)
    ∧ (∀ (k : Buf) (entry : Entry) (s s' : DumperState), db k = some entry →
        supportedType entry.type = true → step db (.resolve k) s = some s' →
        s'.dumping = s.dumping - 1 ∧ s'.pushed = s.pushed + 1
          ∧ s'.out = s.out ++ [outputProtocol k entry.type entry.value entry.ttl]) := by
  refine ⟨?_, ?_, ?_, ?_⟩
  · intro s hr
    obtain ⟨h1, h2⟩ := counterInv_reachable hr
    refine ⟨by omega, h1⟩
  · intro k s
    exact ⟨rfl, rfl, rfl⟩
  · intro k entry s s' h1 h2 hs
    obtain ⟨-, rfl⟩ := step_resolve_unsupported h1 h2 hs
    exact ⟨rfl, rfl, rfl, rfl⟩
  · intro k entry s s' h1 h2 hs
    obtain ⟨-, rfl⟩ := step_resolve_supported h1 h2 hs
    exact ⟨rfl, rfl, rfl⟩

/-- C9 witness: the counter equation at the initial state, via the C9
theorem. -/
theorem dumping_counter_correct_witness :
    0 ≤ initState.dumping
      ∧ initState.dumping = (initState.started : Int) - (initState.pushed : Int) :=
  (dumping_counter_correct (fun _ => none)).1 initState Reachable.init

end RedisDump
